import Mathlib

/-!
Shallow embedding of the PubGrub solver core (`src/internal/core.rs`) and of the
supporting modules it uses.  Only `core.rs` is part of the sources; the modules
`incompatibility`, `partial_solution`, `arena`, `term`, `error` and `report` are
modelled from the specification, as indicated on each definition.
-/

/-- Package identifiers: opaque, equatable, hashable, totally ordered (spec §3).
Modelled as natural numbers. -/
abbrev Package := Nat

/-- Versions: totally ordered, equatable (spec §3). Modelled as natural numbers. -/
abbrev Version := Nat

/-- Modelled from the spec: the arena (`src/internal/arena.rs`) is not under `src/`.
Ids are dense naturals assigned in allocation order; the arena itself is a list and
`alloc` appends at the end, so a fresh id is the length of the store. -/
abbrev IncompId := Nat

/-- Decision levels (spec §3): 0 for the pre-root state, incremented per decision. -/
abbrev DecisionLevel := Nat

/-- Modelled from the spec: the range-set type `R` (spec §3) is not under `src/`.
A range set is either a finite set of versions or the complement of one; this supports
the required algebra (membership, complement, intersection, union, emptiness) exactly. -/
inductive RangeSet where
  | listed (vs : List Version)
  | cofinite (vs : List Version)
deriving DecidableEq

/-- Modelled from the spec: range complement. -/
def RangeSet.complement : RangeSet → RangeSet
  | .listed vs => .cofinite vs
  | .cofinite vs => .listed vs

/-- Modelled from the spec: range intersection. -/
def RangeSet.intersection : RangeSet → RangeSet → RangeSet
  | .listed a, .listed b => .listed (a.filter (fun v => b.contains v))
  | .listed a, .cofinite b => .listed (a.filter (fun v => !b.contains v))
  | .cofinite a, .listed b => .listed (b.filter (fun v => !a.contains v))
  | .cofinite a, .cofinite b => .cofinite (a ++ b)

/-- Modelled from the spec: range union. -/
def RangeSet.union : RangeSet → RangeSet → RangeSet
  | .listed a, .listed b => .listed (a ++ b)
  | .listed a, .cofinite b => .cofinite (b.filter (fun v => !a.contains v))
  | .cofinite a, .listed b => .cofinite (a.filter (fun v => !b.contains v))
  | .cofinite a, .cofinite b => .cofinite (a.filter (fun v => b.contains v))

/-- Modelled from the spec: emptiness test of a range set. A cofinite set over the
infinite version universe is never empty. -/
def RangeSet.isEmpty : RangeSet → Bool
  | .listed vs => vs.isEmpty
  | .cofinite _ => false

/-- Modelled from the spec: fullness test of a range set (used to detect unsatisfiable
negative terms). -/
def RangeSet.isFull : RangeSet → Bool
  | .cofinite vs => vs.isEmpty
  | .listed _ => false

/-- Modelled from the spec: a Term is a range set tagged positive or negative
(spec §3, §4.1); the `term` module is not under `src/`. -/
structure Term where
  positive : Bool
  range : RangeSet
deriving DecidableEq

/-- Modelled from the spec: term intersection following the positive/negative
semantics of spec §3 (positive means "in the range", negative means "not in it"). -/
def Term.intersection (t1 t2 : Term) : Term :=
  match t1.positive, t2.positive with
  | true, true => ⟨true, t1.range.intersection t2.range⟩
  | true, false => ⟨true, t1.range.intersection t2.range.complement⟩
  | false, true => ⟨true, t1.range.complement.intersection t2.range⟩
  | false, false => ⟨false, t1.range.union t2.range⟩

/-- Modelled from the spec: a term is empty when no version satisfies it. -/
def Term.isEmptyTerm (t : Term) : Bool :=
  if t.positive then t.range.isEmpty else t.range.isFull

/-- Modelled from the spec: the term `t` denotes exactly the singleton `{v}`
(a "positive exact version" predicate, up to the positive/negative encoding;
`negative(complement-of-{v})` is noted equivalent to "must equal v" in spec §4.2). -/
def Term.selectsExactly (t : Term) (v : Version) : Bool :=
  match t.positive, t.range with
  | true, .listed vs => vs.contains v && vs.all (fun w => w == v)
  | false, .cofinite vs => vs.contains v && vs.all (fun w => w == v)
  | _, _ => false

/-- Modelled from the spec: the provenance kind of an incompatibility (spec §3);
the `incompatibility` module is not under `src/`. -/
inductive Kind where
  | notRoot (package : Package) (version : Version)
  | noVersions (package : Package) (range : RangeSet)
  | unavailableDependencies (package : Package) (range : RangeSet)
  | fromDependencyOf (package : Package) (range : RangeSet) (dep : Package) (depRange : RangeSet)
  | derivedFrom (cause1 cause2 : IncompId)
deriving DecidableEq

/-- Modelled from the spec: an incompatibility is a finite mapping from distinct
packages to terms plus a kind (spec §3); the map is represented as an association list. -/
structure Incompatibility where
  terms : List (Package × Term)
  kind : Kind
deriving DecidableEq

instance : Inhabited Incompatibility :=
  ⟨{ terms := [], kind := Kind.notRoot 0 0 }⟩

/-- Modelled from the spec: `causes()` returns the two parent ids of a
`DerivedFrom` incompatibility and nothing for External ones (spec §4.6). -/
def Incompatibility.causes (inc : Incompatibility) : Option (IncompId × IncompId) :=
  match inc.kind with
  | .derivedFrom c1 c2 => some (c1, c2)
  | _ => none

/-- Modelled from the spec: an incompatibility is terminal if it is empty or contains
exactly one term selecting the root at its exact version (spec §3). -/
def Incompatibility.isTerminal (inc : Incompatibility) (rootPackage : Package)
    (rootVersion : Version) : Bool :=
  match inc.terms with
  | [] => true
  | [(p, t)] => p == rootPackage && t.selectsExactly rootVersion
  | _ => false

/-- Modelled from the spec: `not_root(pkg, v)` builds `{ pkg: negative(complement-of-{v}) }`
(spec §4.2). -/
def Incompatibility.notRoot (package : Package) (version : Version) : Incompatibility :=
  { terms := [(package, ⟨false, RangeSet.cofinite [version]⟩)]
    kind := Kind.notRoot package version }

/-- Modelled from the spec: `from_dependency(pkg, v, (dep, depRange))` builds
`{ pkg: positive({v}), dep: negative(depRange) }` (spec §4.2). -/
def Incompatibility.fromDependency (package : Package) (version : Version)
    (dep : Package × RangeSet) : Incompatibility :=
  { terms := [(package, ⟨true, RangeSet.listed [version]⟩), (dep.1, ⟨false, dep.2⟩)]
    kind := Kind.fromDependencyOf package (RangeSet.listed [version]) dep.1 dep.2 }

/-- Lookup of the term associated to a package in an incompatibility's term list. -/
def termsFind (ts : List (Package × Term)) (p : Package) : Option Term :=
  match ts with
  | [] => none
  | (q, t) :: rest => if q == p then some t else termsFind rest p

/-- Replace the term associated to a package (keys are unchanged). -/
def termsReplace (ts : List (Package × Term)) (p : Package) (t : Term) :
    List (Package × Term) :=
  ts.map (fun qt => if qt.fst == p then (qt.fst, t) else qt)

/-- Remove the entry of a package from a term list. -/
def termsErase (ts : List (Package × Term)) (p : Package) : List (Package × Term) :=
  ts.filter (fun qt => qt.fst != p)

/-- Modelled from the spec: `prior_cause(a, b, pivotPkg)` is the resolution of two
incompatibilities over the pivot: the union of both term lists excluding the pivot,
intersecting the terms of packages present in both and dropping empty intersections;
the kind is `DerivedFrom(a, b)` (spec §4.2). -/
def Incompatibility.priorCause (incompat satisfierCause : IncompId) (package : Package)
    (store : List Incompatibility) : Incompatibility :=
  let a := store.getD incompat default
  let b := store.getD satisfierCause default
  let base := a.terms.filter (fun pt => pt.fst != package)
  let merged := (b.terms.filter (fun pt => pt.fst != package)).foldl
    (fun acc pt =>
      match termsFind acc pt.fst with
      | some t0 =>
        let t1 := t0.intersection pt.snd
        if t1.isEmptyTerm then termsErase acc pt.fst else termsReplace acc pt.fst t1
      | none => acc ++ [pt]) base
  { terms := merged, kind := Kind.derivedFrom incompat satisfierCause }

/-- Modelled from the spec: the relation of an incompatibility to the partial
solution (spec §4.2). -/
inductive Relation where
  | satisfied
  | almostSatisfied (package : Package)
  | contradicted (package : Package)
  | inconclusive
deriving DecidableEq

/-- Modelled from the spec: an assignment is a Decision or a Derivation
(spec §3); the `assignment` module is not under `src/`. -/
inductive Assignment where
  | decision (package : Package) (version : Version)
  | derivation (package : Package) (cause : IncompId)
deriving DecidableEq

/-- Modelled from the spec: the derivation tree built on failure has External
leaves and Derived internal nodes with two parent trees; shared nodes carry their
id (spec §4.6); the `report` module is not under `src/`. -/
inductive DerivationTree where
  | external (kind : Kind)
  | derived (shared : Option IncompId) (cause1 cause2 : DerivationTree)
deriving DecidableEq

/-- Modelled from the spec: the error type of the solver (spec §6); the `error`
module is not under `src/`. Only `NoSolution` is produced by the core state machine. -/
inductive PubGrubError where
  | noSolution (tree : DerivationTree)
  | errorRetrievingDependencies (package : Package) (version : Version)
  | dependencyOnTheEmptySet (package : Package) (version : Version) (dependent : Package)
  | selfDependency (package : Package) (version : Version)
  | errorChoosingPackageVersion
  | errorInShouldCancel
deriving DecidableEq

/-- Modelled from the spec: the PartialSolution module (`src/internal/partial_solution.rs`)
is not under `src/`. Its operations consumed by `core.rs` (spec §4.4) are abstracted as a
record over an abstract partial-solution state `PS`; all theorems about the core hold for
every implementation of this record, in particular for the one described in spec §4.4. -/
structure PartialSolutionOps (PS : Type) where
  empty : PS
  relation : PS → Incompatibility → Relation
  addDerivation : PS → Package → IncompId → List Incompatibility → PS
  backtrack : PS → DecisionLevel → List Incompatibility → PS
  findSatisfierAndPreviousSatisfierLevel :
    PS → Incompatibility → List Incompatibility → Assignment × DecisionLevel × DecisionLevel

/-- Lookup in the per-package incompatibility index (`Map<P, Vec<IncompId>>`); a missing
key yields the empty list (the Rust indexing expression would panic on a missing key,
which the solver never exercises). -/
def mapGet (m : List (Package × List IncompId)) (p : Package) : List IncompId :=
  match m with
  | [] => []
  | (q, ids) :: rest => if q == p then ids else mapGet rest p

/-- The operation `entry(pkg).or_default().push(id)` on the per-package index. -/
def mapPush (m : List (Package × List IncompId)) (p : Package) (id : IncompId) :
    List (Package × List IncompId) :=
  match m with
  | [] => [(p, [id])]
  | (q, ids) :: rest => if q == p then (q, ids ++ [id]) :: rest else (q, ids) :: mapPush rest p id

/-- The operation `HashSet::insert` on the used-incompatibilities set (membership semantics). -/
def setInsert (id : IncompId) (s : List IncompId) : List IncompId :=
  if s.contains id then s else id :: s

/-- Current state of the PubGrub algorithm (`State` in `core.rs`), over an abstract
partial-solution type `PS`. -/
structure State (PS : Type) where
  rootPackage : Package
  rootVersion : Version
  incompatibilities : List (Package × List IncompId)
  usedIncompatibilities : List IncompId
  partialSolution : PS
  incompatibilityStore : List Incompatibility
  unitPropagationBuffer : List Package

/-- Embedding of `State::is_terminal` in `core.rs`. -/
def State.isTerminal {PS : Type} (st : State PS) (incompatibility : Incompatibility) : Bool :=
  incompatibility.isTerminal st.rootPackage st.rootVersion

/-- Embedding of `State::merge_incompatibility` in `core.rs`: push `id` into the per-package index
under every package of the incompatibility's term map. -/
def State.mergeIncompatibility {PS : Type} (st : State PS) (id : IncompId) : State PS :=
  { st with incompatibilities :=
      (((st.incompatibilityStore.getD id default).terms).foldl
        (fun m pt => mapPush m pt.fst id) st.incompatibilities) }

/-- Embedding of `State::init` in `core.rs`: allocate the `not_root` incompatibility and record it
as the only incompatibility involving the root. -/
def State.init {PS : Type} (ops : PartialSolutionOps PS) (rootPackage : Package)
    (rootVersion : Version) : State PS :=
  { rootPackage := rootPackage
    rootVersion := rootVersion
    incompatibilities := [(rootPackage, [0])]
    usedIncompatibilities := []
    partialSolution := ops.empty
    incompatibilityStore := [Incompatibility.notRoot rootPackage rootVersion]
    unitPropagationBuffer := [] }

/-- Embedding of `State::add_incompatibility` in `core.rs`: allocate then merge. -/
def State.addIncompatibility {PS : Type} (st : State PS) (incompat : Incompatibility) :
    State PS :=
  let id := st.incompatibilityStore.length
  let st1 := { st with incompatibilityStore := st.incompatibilityStore ++ [incompat] }
  st1.mergeIncompatibility id

/-- Merge a list of freshly allocated ids in order (the loop over
`IncompId::range_to_iter` in `add_incompatibility_from_dependencies`). -/
def State.mergeIds {PS : Type} (st : State PS) : List IncompId → State PS
  | [] => st
  | id :: rest => (st.mergeIncompatibility id).mergeIds rest

/-- Embedding of `State::add_incompatibility_from_dependencies` in `core.rs`: allocate one
`from_dependency` incompatibility per dependency, then merge each new id; returns
the allocated id range. -/
def State.addIncompatibilityFromDependencies {PS : Type} (st : State PS) (package : Package)
    (version : Version) (deps : List (Package × RangeSet)) :
    (IncompId × IncompId) × State PS :=
  let start := st.incompatibilityStore.length
  let st1 := { st with incompatibilityStore := (st.incompatibilityStore ++
      deps.map (fun dep => Incompatibility.fromDependency package version dep)) }
  let stop := st1.incompatibilityStore.length
  ((start, stop), st1.mergeIds (List.range' start (stop - start)))

/-- Embedding of `State::find_shared_ids` in `core.rs`: worklist walk over the cause DAG; an id with
causes is recursed into on its first visit and put into the shared set on later visits.
The `while let` loop is modelled with fuel; `2 * store.length + 1` steps always suffice,
since each first visit pushes two ids and only allocated derived ids are first-visited. -/
def findSharedIdsLoop (store : List Incompatibility) :
    Nat → List IncompId → Finset Nat → Finset Nat → Finset Nat
  | 0, _, _, shared => shared
  | _ + 1, [], _, shared => shared
  | fuel + 1, i :: rest, all, shared =>
    match (store.getD i default).causes with
    | none => findSharedIdsLoop store fuel rest all shared
    | some c =>
      if i ∈ all then findSharedIdsLoop store fuel rest all (insert i shared)
      else findSharedIdsLoop store fuel (c.2 :: c.1 :: rest) (insert i all) shared

/-- Entry point of `State::find_shared_ids`. -/
def State.findSharedIds {PS : Type} (st : State PS) (incompat : IncompId) : Finset Nat :=
  findSharedIdsLoop st.incompatibilityStore (2 * st.incompatibilityStore.length + 1)
    [incompat] ∅ ∅

/-- The sequence of ids popped by the `find_shared_ids` walk (same recursion and fuel as
`findSharedIdsLoop`, recording the visits; it does not depend on the shared set). -/
def findSharedIdsPopsLoop (store : List Incompatibility) :
    Nat → List IncompId → Finset Nat → List IncompId
  | 0, _, _ => []
  | _ + 1, [], _ => []
  | fuel + 1, i :: rest, all =>
    match (store.getD i default).causes with
    | none => i :: findSharedIdsPopsLoop store fuel rest all
    | some c =>
      if i ∈ all then i :: findSharedIdsPopsLoop store fuel rest all
      else i :: findSharedIdsPopsLoop store fuel (c.2 :: c.1 :: rest) (insert i all)

/-- The visits of the `find_shared_ids` walk started on one incompatibility. -/
def State.findSharedIdsPops {PS : Type} (st : State PS) (incompat : IncompId) :
    List IncompId :=
  findSharedIdsPopsLoop st.incompatibilityStore (2 * st.incompatibilityStore.length + 1)
    [incompat] ∅

/-- Modelled from the spec: `Incompatibility::build_derivation_tree` (spec §4.6) builds
External leaves for incompatibilities without causes and Derived nodes (tagged with
their id when shared) for derived ones; fuel bounds the recursion depth, which suffices
on DAG stores. -/
def buildTree (store : List Incompatibility) (sharedIds : Finset Nat) :
    Nat → IncompId → DerivationTree
  | 0, i => .external (store.getD i default).kind
  | fuel + 1, i =>
    match (store.getD i default).causes with
    | none => .external (store.getD i default).kind
    | some c =>
      .derived (if i ∈ sharedIds then some i else none)
        (buildTree store sharedIds fuel c.1) (buildTree store sharedIds fuel c.2)

/-- Embedding of `State::build_derivation_tree` in `core.rs`. -/
def State.buildDerivationTree {PS : Type} (st : State PS) (incompat : IncompId) :
    DerivationTree :=
  buildTree st.incompatibilityStore (st.findSharedIds incompat)
    st.incompatibilityStore.length incompat

/-- Embedding of `State::backtrack` in `core.rs`: backtrack the partial solution to the given level,
discard the used-incompatibilities set, and merge the incompatibility iff it changed. -/
def State.backtrack {PS : Type} (ops : PartialSolutionOps PS) (st : State PS)
    (incompat : IncompId) (incompatChanged : Bool) (decisionLevel : DecisionLevel) :
    State PS :=
  let st1 := { st with
    partialSolution := ops.backtrack st.partialSolution decisionLevel st.incompatibilityStore
    usedIncompatibilities := [] }
  if incompatChanged then st1.mergeIncompatibility incompat else st1

/-- Outcome of one iteration of the `conflict_resolution` loop body. -/
inductive CRStep (PS : Type) where
  | failure (tree : DerivationTree)
  | success (package : Package) (rootCause : IncompId) (st : State PS)
  | next (st : State PS) (newId : IncompId)

/-- One iteration of the loop body of `State::conflict_resolution` in `core.rs`. -/
def conflictResolutionStep {PS : Type} (ops : PartialSolutionOps PS) (st : State PS)
    (currentIncompatId : IncompId) (currentIncompatChanged : Bool) : CRStep PS :=
  if st.isTerminal (st.incompatibilityStore.getD currentIncompatId default) then
    .failure (st.buildDerivationTree currentIncompatId)
  else
    match ops.findSatisfierAndPreviousSatisfierLevel st.partialSolution
        (st.incompatibilityStore.getD currentIncompatId default) st.incompatibilityStore with
    | (.decision package _, _, previousSatisfierLevel) =>
      .success package currentIncompatId
        (State.backtrack ops st currentIncompatId currentIncompatChanged previousSatisfierLevel)
    | (.derivation package cause, satisfierLevel, previousSatisfierLevel) =>
      if previousSatisfierLevel != satisfierLevel then
        .success package currentIncompatId
          (State.backtrack ops st currentIncompatId currentIncompatChanged previousSatisfierLevel)
      else
        let priorCause := Incompatibility.priorCause currentIncompatId cause package
          st.incompatibilityStore
        .next { st with incompatibilityStore := st.incompatibilityStore ++ [priorCause] }
          st.incompatibilityStore.length

/-- The loop of `State::conflict_resolution` in `core.rs`, with fuel for the
number of iterations; `none` means the fuel ran out. -/
def conflictResolutionLoop {PS : Type} (ops : PartialSolutionOps PS) :
    Nat → State PS → IncompId → Bool →
    Option (Except PubGrubError ((Package × IncompId) × State PS))
  | 0, _, _, _ => none
  | fuel + 1, st, currentIncompatId, currentIncompatChanged =>
    match conflictResolutionStep ops st currentIncompatId currentIncompatChanged with
    | .failure tree => some (.error (PubGrubError.noSolution tree))
    | .success package rootCause st' => some (.ok ((package, rootCause), st'))
    | .next st' newId => conflictResolutionLoop ops fuel st' newId true

/-- Embedding of `State::conflict_resolution` in `core.rs`: the loop is entered with the starting
incompatibility and the changed flag cleared. -/
def State.conflictResolution {PS : Type} (ops : PartialSolutionOps PS) (fuel : Nat)
    (st : State PS) (incompatibility : IncompId) :
    Option (Except PubGrubError ((Package × IncompId) × State PS)) :=
  conflictResolutionLoop ops fuel st incompatibility false

/-- The inner loop of `State::unit_propagation` in `core.rs`: scan the given ids
(already reversed), skipping used incompatibilities, acting on the relation of each
to the partial solution; returns the updated state and the recorded conflict, if any.
A `Satisfied` relation records the conflict and stops the scan. -/
def unitPropagationScan {PS : Type} (ops : PartialSolutionOps PS) (st : State PS) :
    List IncompId → State PS × Option IncompId
  | [] => (st, none)
  | incompatId :: rest =>
    if st.usedIncompatibilities.contains incompatId then
      unitPropagationScan ops st rest
    else
      match ops.relation st.partialSolution (st.incompatibilityStore.getD incompatId default) with
      | .satisfied => (st, some incompatId)
      | .almostSatisfied packageAlmost =>
        unitPropagationScan ops
          { st with
            unitPropagationBuffer := packageAlmost :: st.unitPropagationBuffer
            usedIncompatibilities := setInsert incompatId st.usedIncompatibilities
            partialSolution := (ops.addDerivation st.partialSolution packageAlmost incompatId
              st.incompatibilityStore) }
          rest
      | .contradicted _ =>
        unitPropagationScan ops
          { st with usedIncompatibilities := setInsert incompatId st.usedIncompatibilities }
          rest
      | .inconclusive => unitPropagationScan ops st rest

/-- The ids the scan examines, that is the ids whose relation to the partial solution
is evaluated: unused ids of the list in order, up to and including the first one found
`Satisfied` (same recursion as `unitPropagationScan`). -/
def unitPropagationExamined {PS : Type} (ops : PartialSolutionOps PS) (st : State PS) :
    List IncompId → List IncompId
  | [] => []
  | incompatId :: rest =>
    if st.usedIncompatibilities.contains incompatId then
      unitPropagationExamined ops st rest
    else
      match ops.relation st.partialSolution (st.incompatibilityStore.getD incompatId default) with
      | .satisfied => [incompatId]
      | .almostSatisfied packageAlmost =>
        incompatId :: unitPropagationExamined ops
          { st with
            unitPropagationBuffer := packageAlmost :: st.unitPropagationBuffer
            usedIncompatibilities := setInsert incompatId st.usedIncompatibilities
            partialSolution := (ops.addDerivation st.partialSolution packageAlmost incompatId
              st.incompatibilityStore) }
          rest
      | .contradicted _ =>
        incompatId :: unitPropagationExamined ops
          { st with usedIncompatibilities := setInsert incompatId st.usedIncompatibilities }
          rest
      | .inconclusive => incompatId :: unitPropagationExamined ops st rest

/-- The outer loop of `State::unit_propagation` in `core.rs`, popping changed packages
until the buffer drains, with fuel for the number of iterations (`none` means the fuel
ran out; `crFuel` is the fuel handed to each `conflict_resolution` call). -/
def unitPropagationLoop {PS : Type} (ops : PartialSolutionOps PS) (crFuel : Nat) :
    Nat → State PS → Option (Except PubGrubError (State PS))
  | 0, _ => none
  | fuel + 1, st =>
    match st.unitPropagationBuffer with
    | [] => some (.ok st)
    | currentPackage :: restBuffer =>
      let st0 := { st with unitPropagationBuffer := restBuffer }
      let scanned := unitPropagationScan ops st0
        ((mapGet st0.incompatibilities currentPackage).reverse)
      match scanned.2 with
      | none => unitPropagationLoop ops crFuel fuel scanned.1
      | some incompatId =>
        match State.conflictResolution ops crFuel scanned.1 incompatId with
        | none => none
        | some (.error e) => some (.error e)
        | some (.ok ((packageAlmost, rootCause), st2)) =>
          unitPropagationLoop ops crFuel fuel
            { st2 with
              unitPropagationBuffer := [packageAlmost]
              usedIncompatibilities := setInsert rootCause st2.usedIncompatibilities
              partialSolution := (ops.addDerivation st2.partialSolution packageAlmost rootCause
                st2.incompatibilityStore) }

/-- Embedding of `State::unit_propagation` in `core.rs`: clear the buffer, seed it with the changed
package, and run the loop. -/
def State.unitPropagation {PS : Type} (ops : PartialSolutionOps PS) (fuel crFuel : Nat)
    (st : State PS) (package : Package) : Option (Except PubGrubError (State PS)) :=
  unitPropagationLoop ops crFuel fuel { st with unitPropagationBuffer := [package] }

/-- States reachable from `init` by the public operations of `core.rs`.  The side
conditions record what the Rust types enforce: an `Incompatibility` maps *distinct*
packages to terms (spec §3 invariant 1), and a package does not depend on itself
(a `SelfDependency` error is raised by the solver before reaching the core). -/
inductive Reachable {PS : Type} (ops : PartialSolutionOps PS) : State PS → Prop where
  | init (rootPackage : Package) (rootVersion : Version) :
      Reachable ops (State.init ops rootPackage rootVersion)
  | addIncompatibility (st : State PS) (incompat : Incompatibility) :
      Reachable ops st → (incompat.terms.map Prod.fst).Nodup →
      Reachable ops (st.addIncompatibility incompat)
  | addIncompatibilityFromDependencies (st : State PS) (package : Package) (version : Version)
      (deps : List (Package × RangeSet)) :
      Reachable ops st → package ∉ deps.map Prod.fst →
      Reachable ops (st.addIncompatibilityFromDependencies package version deps).2
  | unitPropagation (st : State PS) (package : Package) (fuel crFuel : Nat) (st' : State PS) :
      Reachable ops st → State.unitPropagation ops fuel crFuel st package = some (.ok st') →
      Reachable ops st'

/-- A trivial partial-solution implementation, used to instantiate the theorems about
the core on concrete inputs. -/
def unitOps (sat : Assignment × DecisionLevel × DecisionLevel) (rel : Relation) :
    PartialSolutionOps Unit :=
  { empty := ()
    relation := fun _ _ => rel
    addDerivation := fun _ _ _ _ => ()
    backtrack := fun _ _ _ => ()
    findSatisfierAndPreviousSatisfierLevel := fun _ _ _ => sat }

/-- A sample non-terminal incompatibility over two packages. -/
def sampleIncompat : Incompatibility :=
  Incompatibility.fromDependency 1 1 (2, RangeSet.listed [3])

/-- The packages of an incompatibility's term map. -/
def Incompatibility.packages (inc : Incompatibility) : List Package :=
  inc.terms.map Prod.fst

/-- Every incompatibility of the store maps distinct packages. -/
def StoreNodup (store : List Incompatibility) : Prop :=
  ∀ inc ∈ store, inc.packages.Nodup

/-- The index invariant relating the per-package index to the store: all listed ids
are allocated, each per-package list is strictly increasing in allocation order, and
each listed incompatibility contains the package it is indexed under. -/
def IndexProps (store : List Incompatibility)
    (m : List (Package × List IncompId)) : Prop :=
  ∀ p ids, (p, ids) ∈ m →
    (∀ id ∈ ids, id < store.length) ∧ ids.Chain' (· < ·) ∧
    (∀ id ∈ ids, p ∈ (store.getD id default).packages)

/-- The whole state invariant maintained by the public operations. -/
def StateInv {PS : Type} (st : State PS) : Prop :=
  IndexProps st.incompatibilityStore st.incompatibilities ∧
  StoreNodup st.incompatibilityStore

/-- A store whose terminal derived incompatibility has the same External leaf as both
causes. -/
def cexStore : List Incompatibility :=
  [Incompatibility.fromDependency 1 1 (2, RangeSet.listed [3]),
   { terms := [], kind := Kind.derivedFrom 0 0 }]

/-- A state holding `cexStore`. -/
def cexState : State Unit :=
  { rootPackage := 0
    rootVersion := 0
    incompatibilities := []
    usedIncompatibilities := []
    partialSolution := ()
    incompatibilityStore := cexStore
    unitPropagationBuffer := [] }

/-- A sample state holding one non-terminal incompatibility indexed under its
two packages. -/
def sampleState : State Unit :=
  { rootPackage := 0
    rootVersion := 0
    incompatibilities := [(1, [0]), (2, [0])]
    usedIncompatibilities := []
    partialSolution := ()
    incompatibilityStore := [sampleIncompat]
    unitPropagationBuffer := [] }

/-- C1: in `conflict_resolution`, whenever the satisfier of the current incompatibility
`C` is a Decision, or a Derivation whose previous satisfier level differs from the
satisfier's level, the loop backtracks the partial solution to the previous satisfier
level, discards the used-incompatibilities set, merges `C` into the per-package index
if and only if the changed flag is set (the flag a prior-cause step sets), leaves the
store unchanged, and returns the pair (satisfier's package, `C`). -/
theorem conflictResolution_backtrack_case {PS : Type} (ops : PartialSolutionOps PS)
    (st : State PS) (fuel : Nat) (cid : IncompId) (changed : Bool) (package : Package)
    (satisfier : Assignment) (satisfierLevel previousSatisfierLevel : DecisionLevel)
    (hterm : st.isTerminal (st.incompatibilityStore.getD cid default) = false)
    (hsat : ops.findSatisfierAndPreviousSatisfierLevel st.partialSolution
        (st.incompatibilityStore.getD cid default) st.incompatibilityStore =
        (satisfier, satisfierLevel, previousSatisfierLevel))
    (hcase : (∃ version, satisfier = Assignment.decision package version) ∨
        (∃ cause, satisfier = Assignment.derivation package cause ∧
          previousSatisfierLevel ≠ satisfierLevel)) :
    conflictResolutionLoop ops (fuel + 1) st cid changed =
      some (Except.ok ((package, cid),
        State.backtrack ops st cid changed previousSatisfierLevel)) ∧
    (State.backtrack ops st cid changed previousSatisfierLevel).partialSolution =
      ops.backtrack st.partialSolution previousSatisfierLevel st.incompatibilityStore ∧
    (State.backtrack ops st cid changed previousSatisfierLevel).usedIncompatibilities = [] ∧
    (State.backtrack ops st cid changed previousSatisfierLevel).incompatibilities =
      (if changed then (st.mergeIncompatibility cid).incompatibilities
       else st.incompatibilities) ∧
    (State.backtrack ops st cid changed previousSatisfierLevel).incompatibilityStore =
      st.incompatibilityStore := by
  have hstep : conflictResolutionStep ops st cid changed =
      CRStep.success package cid
        (State.backtrack ops st cid changed previousSatisfierLevel) := by
    unfold conflictResolutionStep
    rw [hsat, hterm]
    rcases hcase with ⟨version, hv⟩ | ⟨cause, hv, hne⟩
    · subst hv
      simp
    · subst hv
      simp [hne]
  refine ⟨?_, ?_, ?_, ?_, ?_⟩
  · simp [conflictResolutionLoop, hstep]
  · unfold State.backtrack
    cases changed <;> simp [State.mergeIncompatibility]
  · unfold State.backtrack
    cases changed <;> simp [State.mergeIncompatibility]
  · unfold State.backtrack State.mergeIncompatibility
    cases changed <;> simp
  · unfold State.backtrack
    cases changed <;> simp [State.mergeIncompatibility]

/-- C1 witness: the theorem applied to a concrete state whose satisfier is a Decision. -/
theorem conflictResolution_backtrack_case_witness :
    conflictResolutionLoop (unitOps (Assignment.decision 7 4, 3, 1) Relation.inconclusive)
        1 sampleState 0 false =
      some (Except.ok ((7, 0),
        State.backtrack (unitOps (Assignment.decision 7 4, 3, 1) Relation.inconclusive)
          sampleState 0 false 1)) ∧
    (State.backtrack (unitOps (Assignment.decision 7 4, 3, 1) Relation.inconclusive)
        sampleState 0 false 1).usedIncompatibilities = [] := by
  have h := conflictResolution_backtrack_case
    (unitOps (Assignment.decision 7 4, 3, 1) Relation.inconclusive) sampleState 0 0 false 7
    (Assignment.decision 7 4) 3 1 (by rfl) (by rfl) (Or.inl ⟨4, rfl⟩)
  exact ⟨h.1, h.2.2.1⟩

/-- C3: in `conflict_resolution`, whenever the satisfier of the current incompatibility
`C` is a Derivation whose previous satisfier level equals the satisfier's level, the
next current incompatibility is `prior_cause(C, satisfier's cause, satisfier's package)`,
it is freshly allocated in the arena (its id is the store length and the store is
extended with exactly it), the changed flag becomes true, and the loop continues with it. -/
theorem conflictResolution_priorCause_case {PS : Type} (ops : PartialSolutionOps PS)
    (st : State PS) (fuel : Nat) (cid : IncompId) (changed : Bool) (package : Package)
    (cause : IncompId) (level : DecisionLevel)
    (hterm : st.isTerminal (st.incompatibilityStore.getD cid default) = false)
    (hsat : ops.findSatisfierAndPreviousSatisfierLevel st.partialSolution
        (st.incompatibilityStore.getD cid default) st.incompatibilityStore =
        (Assignment.derivation package cause, level, level)) :
    conflictResolutionStep ops st cid changed =
      CRStep.next
        { st with incompatibilityStore := (st.incompatibilityStore ++
            [Incompatibility.priorCause cid cause package st.incompatibilityStore]) }
        st.incompatibilityStore.length ∧
    conflictResolutionLoop ops (fuel + 2) st cid changed =
      conflictResolutionLoop ops (fuel + 1)
        { st with incompatibilityStore := (st.incompatibilityStore ++
            [Incompatibility.priorCause cid cause package st.incompatibilityStore]) }
        st.incompatibilityStore.length true ∧
    ({ st with incompatibilityStore := (st.incompatibilityStore ++
        [Incompatibility.priorCause cid cause package st.incompatibilityStore])
        : State PS }).incompatibilityStore.getD st.incompatibilityStore.length default =
      Incompatibility.priorCause cid cause package st.incompatibilityStore := by
  have hstep : conflictResolutionStep ops st cid changed =
      CRStep.next
        { st with incompatibilityStore := (st.incompatibilityStore ++
            [Incompatibility.priorCause cid cause package st.incompatibilityStore]) }
        st.incompatibilityStore.length := by
    unfold conflictResolutionStep
    rw [hsat, hterm]
    simp
  refine ⟨hstep, ?_, ?_⟩
  · show conflictResolutionLoop ops (fuel + 1 + 1) st cid changed = _
    simp only [conflictResolutionLoop, hstep]
  · rw [List.getD_eq_getElem?_getD]
    simp

/-- C3 witness: the theorem applied to a concrete state whose satisfier is a Derivation
at the previous satisfier level. -/
theorem conflictResolution_priorCause_case_witness :
    conflictResolutionLoop (unitOps (Assignment.derivation 5 0, 2, 2) Relation.inconclusive)
        2 sampleState 0 false =
      conflictResolutionLoop (unitOps (Assignment.derivation 5 0, 2, 2) Relation.inconclusive)
        1
        { sampleState with incompatibilityStore := (sampleState.incompatibilityStore ++
            [Incompatibility.priorCause 0 0 5 sampleState.incompatibilityStore]) }
        1 true := by
  have h := conflictResolution_priorCause_case
    (unitOps (Assignment.derivation 5 0, 2, 2) Relation.inconclusive) sampleState 0 0 false 5
    0 2 (by rfl) (by rfl)
  exact h.2.1

/-- C5: during unit propagation, each examined incompatibility is handled according to
its relation to the partial solution: `Satisfied` records it as the conflict and stops
the scan; `AlmostSatisfied(q)` pushes `q` onto the changed-packages stack, marks the
incompatibility used, and appends a Derivation for `q` caused by it; `Contradicted`
only marks it used; `Inconclusive` does nothing. -/
theorem unitPropagation_relation_cases {PS : Type} (ops : PartialSolutionOps PS)
    (st : State PS) (incompatId : IncompId) (rest : List IncompId)
    (hunused : st.usedIncompatibilities.contains incompatId = false) :
    (ops.relation st.partialSolution (st.incompatibilityStore.getD incompatId default) =
        Relation.satisfied →
      unitPropagationScan ops st (incompatId :: rest) = (st, some incompatId)) ∧
    (∀ packageAlmost,
      ops.relation st.partialSolution (st.incompatibilityStore.getD incompatId default) =
        Relation.almostSatisfied packageAlmost →
      unitPropagationScan ops st (incompatId :: rest) =
        unitPropagationScan ops
          { st with
            unitPropagationBuffer := packageAlmost :: st.unitPropagationBuffer
            usedIncompatibilities := setInsert incompatId st.usedIncompatibilities
            partialSolution := (ops.addDerivation st.partialSolution packageAlmost incompatId
              st.incompatibilityStore) } rest) ∧
    (∀ package,
      ops.relation st.partialSolution (st.incompatibilityStore.getD incompatId default) =
        Relation.contradicted package →
      unitPropagationScan ops st (incompatId :: rest) =
        unitPropagationScan ops
          { st with usedIncompatibilities := setInsert incompatId st.usedIncompatibilities }
          rest) ∧
    (ops.relation st.partialSolution (st.incompatibilityStore.getD incompatId default) =
        Relation.inconclusive →
      unitPropagationScan ops st (incompatId :: rest) = unitPropagationScan ops st rest) := by
  refine ⟨?_, ?_, ?_, ?_⟩
  · intro h
    conv_lhs => rw [unitPropagationScan]
    rw [hunused, h]
    rfl
  · intro packageAlmost h
    conv_lhs => rw [unitPropagationScan]
    rw [hunused, h]
    rfl
  · intro package h
    conv_lhs => rw [unitPropagationScan]
    rw [hunused, h]
    rfl
  · intro h
    conv_lhs => rw [unitPropagationScan]
    rw [hunused, h]
    rfl

/-- C5 witness: the satisfied and almost-satisfied cases evaluated on concrete states. -/
theorem unitPropagation_relation_cases_witness :
    unitPropagationScan (unitOps (Assignment.decision 5 9, 2, 2) Relation.satisfied)
      sampleState [0, 0] = (sampleState, some 0) ∧
    unitPropagationScan (unitOps (Assignment.decision 5 9, 2, 2) (Relation.almostSatisfied 2))
      sampleState [0] =
      unitPropagationScan (unitOps (Assignment.decision 5 9, 2, 2) (Relation.almostSatisfied 2))
        { sampleState with
          unitPropagationBuffer := 2 :: sampleState.unitPropagationBuffer
          usedIncompatibilities := setInsert 0 sampleState.usedIncompatibilities
          partialSolution := () } [] ∧
    unitPropagationScan (unitOps (Assignment.decision 5 9, 2, 2) (Relation.contradicted 1))
      sampleState [0] =
      unitPropagationScan (unitOps (Assignment.decision 5 9, 2, 2) (Relation.contradicted 1))
        { sampleState with
          usedIncompatibilities := setInsert 0 sampleState.usedIncompatibilities } [] ∧
    unitPropagationScan (unitOps (Assignment.decision 5 9, 2, 2) Relation.inconclusive)
      sampleState [0] =
      unitPropagationScan (unitOps (Assignment.decision 5 9, 2, 2) Relation.inconclusive)
        sampleState [] := by
  refine ⟨?_, ?_, ?_, ?_⟩
  · exact (unitPropagation_relation_cases
      (unitOps (Assignment.decision 5 9, 2, 2) Relation.satisfied)
      sampleState 0 [0] (by rfl)).1 (by rfl)
  · exact (unitPropagation_relation_cases
      (unitOps (Assignment.decision 5 9, 2, 2) (Relation.almostSatisfied 2))
      sampleState 0 [] (by rfl)).2.1 2 (by rfl)
  · exact (unitPropagation_relation_cases
      (unitOps (Assignment.decision 5 9, 2, 2) (Relation.contradicted 1))
      sampleState 0 [] (by rfl)).2.2.1 1 (by rfl)
  · exact (unitPropagation_relation_cases
      (unitOps (Assignment.decision 5 9, 2, 2) Relation.inconclusive)
      sampleState 0 [] (by rfl)).2.2.2 (by rfl)

/-- C6: in `unit_propagation`, whenever a conflict was recorded for the current package,
conflict resolution is invoked, and upon its successful return the changed-packages
stack is cleared and the returned package pushed as its only element, the returned
root-cause incompatibility is marked used, and a Derivation for the returned package
caused by that root cause is appended to the partial solution before propagation
continues. -/
theorem unitPropagation_conflict_handling {PS : Type} (ops : PartialSolutionOps PS)
    (crFuel fuel : Nat) (st st1 st2 : State PS) (currentPackage packageAlmost : Package)
    (restBuffer : List Package) (incompatId rootCause : IncompId)
    (hbuf : st.unitPropagationBuffer = currentPackage :: restBuffer)
    (hscan : unitPropagationScan ops { st with unitPropagationBuffer := restBuffer }
        ((mapGet st.incompatibilities currentPackage).reverse) = (st1, some incompatId))
    (hcr : State.conflictResolution ops crFuel st1 incompatId =
        some (Except.ok ((packageAlmost, rootCause), st2))) :
    unitPropagationLoop ops crFuel (fuel + 1) st =
      unitPropagationLoop ops crFuel fuel
        { st2 with
          unitPropagationBuffer := [packageAlmost]
          usedIncompatibilities := setInsert rootCause st2.usedIncompatibilities
          partialSolution := (ops.addDerivation st2.partialSolution packageAlmost rootCause
            st2.incompatibilityStore) } := by
  simp only [unitPropagationLoop]
  rw [hbuf]
  simp only [hscan, hcr]

/-- C6 witness: a concrete conflict found by the scan is resolved and propagation
continues with exactly the returned package on the stack. -/
theorem unitPropagation_conflict_handling_witness :
    unitPropagationLoop (unitOps (Assignment.decision 5 9, 2, 2) Relation.satisfied) 1 1
      { sampleState with unitPropagationBuffer := [1] } =
      unitPropagationLoop (unitOps (Assignment.decision 5 9, 2, 2) Relation.satisfied) 1 0
        { (State.backtrack (unitOps (Assignment.decision 5 9, 2, 2) Relation.satisfied)
            { sampleState with unitPropagationBuffer := [] } 0 false 2) with
          unitPropagationBuffer := [5]
          usedIncompatibilities := setInsert 0
            (State.backtrack (unitOps (Assignment.decision 5 9, 2, 2) Relation.satisfied)
              { sampleState with unitPropagationBuffer := [] } 0 false
              2).usedIncompatibilities
          partialSolution := () } := by
  exact unitPropagation_conflict_handling
    (unitOps (Assignment.decision 5 9, 2, 2) Relation.satisfied) 1 0
    { sampleState with unitPropagationBuffer := [1] }
    { sampleState with unitPropagationBuffer := [] }
    (State.backtrack (unitOps (Assignment.decision 5 9, 2, 2) Relation.satisfied)
      { sampleState with unitPropagationBuffer := [] } 0 false 2)
    1 5 [] 0 0 (by rfl) (by rfl) (by rfl)

/-- Inversion: the conflict-resolution loop body fails only on a terminal current
incompatibility, and then carries the derivation tree rooted at it. -/
theorem conflictResolutionStep_failure_inv {PS : Type} (ops : PartialSolutionOps PS)
    (st : State PS) (cid : IncompId) (changed : Bool) (tree : DerivationTree)
    (h : conflictResolutionStep ops st cid changed = CRStep.failure tree) :
    st.isTerminal (st.incompatibilityStore.getD cid default) = true ∧
    tree = st.buildDerivationTree cid := by
  unfold conflictResolutionStep at h
  split at h
  · cases h
    exact ⟨by assumption, rfl⟩
  · split at h
    · cases h
    · split at h <;> cases h

/-- A terminal current incompatibility makes the loop body fail with the derivation
tree rooted at it. -/
theorem conflictResolutionStep_terminal {PS : Type} (ops : PartialSolutionOps PS)
    (st : State PS) (cid : IncompId) (changed : Bool)
    (hterm : st.isTerminal (st.incompatibilityStore.getD cid default) = true) :
    conflictResolutionStep ops st cid changed =
      CRStep.failure (st.buildDerivationTree cid) := by
  unfold conflictResolutionStep
  rw [hterm]
  rfl

/-- Every error produced by the conflict-resolution loop is a `NoSolution` carrying
the derivation tree rooted at a terminal incompatibility. -/
theorem crLoop_error_inv {PS : Type} (ops : PartialSolutionOps PS) :
    ∀ (fuel : Nat) (st : State PS) (cid : IncompId) (changed : Bool) (e : PubGrubError),
    conflictResolutionLoop ops fuel st cid changed = some (Except.error e) →
    ∃ (st' : State PS) (cid' : IncompId),
      st'.isTerminal (st'.incompatibilityStore.getD cid' default) = true ∧
      e = PubGrubError.noSolution (st'.buildDerivationTree cid') := by
  intro fuel
  induction fuel with
  | zero =>
    intro st cid changed e h
    simp [conflictResolutionLoop] at h
  | succ fuel ih =>
    intro st cid changed e h
    rw [conflictResolutionLoop] at h
    cases hstep : conflictResolutionStep ops st cid changed with
    | failure tree =>
      rw [hstep] at h
      obtain ⟨hterm, htree⟩ := conflictResolutionStep_failure_inv ops st cid changed tree hstep
      refine ⟨st, cid, hterm, ?_⟩
      cases h
      rw [htree]
    | success package rootCause st' =>
      rw [hstep] at h
      cases h
    | next st' newId =>
      rw [hstep] at h
      exact ih st' newId true e h

/-- Every error produced by the unit-propagation loop is a `NoSolution` carrying the
derivation tree rooted at a terminal incompatibility (it can only come out of
`conflict_resolution`). -/
theorem upLoop_error_inv {PS : Type} (ops : PartialSolutionOps PS) (crFuel : Nat) :
    ∀ (fuel : Nat) (st : State PS) (e : PubGrubError),
    unitPropagationLoop ops crFuel fuel st = some (Except.error e) →
    ∃ (st' : State PS) (cid' : IncompId),
      st'.isTerminal (st'.incompatibilityStore.getD cid' default) = true ∧
      e = PubGrubError.noSolution (st'.buildDerivationTree cid') := by
  intro fuel
  induction fuel with
  | zero =>
    intro st e h
    simp [unitPropagationLoop] at h
  | succ fuel ih =>
    intro st e h
    rw [unitPropagationLoop] at h
    cases hbuf : st.unitPropagationBuffer with
    | nil =>
      rw [hbuf] at h
      cases h
    | cons currentPackage restBuffer =>
      rw [hbuf] at h
      dsimp only [] at h
      cases hscan : (unitPropagationScan ops { st with unitPropagationBuffer := restBuffer }
          ((mapGet st.incompatibilities currentPackage).reverse)).2 with
      | none =>
        rw [hscan] at h
        exact ih _ _ h
      | some incompatId =>
        rw [hscan] at h
        dsimp only [] at h
        cases hcr : State.conflictResolution ops crFuel
            (unitPropagationScan ops { st with unitPropagationBuffer := restBuffer }
              ((mapGet st.incompatibilities currentPackage).reverse)).1 incompatId with
        | none =>
          rw [hcr] at h
          cases h
        | some res =>
          rw [hcr] at h
          cases res with
          | error eCR =>
            dsimp only [] at h
            have he : eCR = e := by simpa using h
            subst he
            exact crLoop_error_inv ops crFuel _ incompatId false eCR hcr
          | ok r =>
            obtain ⟨⟨packageAlmost, rootCause⟩, st2⟩ := r
            exact ih _ _ h

/-- C2: `conflict_resolution` returns an error exactly when its current incompatibility
becomes terminal, and that error is `NoSolution` carrying the derivation tree rooted at
that terminal incompatibility; this is also the only error path out of
`unit_propagation`. -/
theorem conflictResolution_error_iff_terminal {PS : Type} (ops : PartialSolutionOps PS)
    (fuel crFuel : Nat) (st stc : State PS) (package : Package) (cid : IncompId)
    (changed : Bool) (e eUP : PubGrubError) :
    (stc.isTerminal (stc.incompatibilityStore.getD cid default) = true →
      conflictResolutionLoop ops (fuel + 1) stc cid changed =
        some (Except.error (PubGrubError.noSolution (stc.buildDerivationTree cid)))) ∧
    (conflictResolutionLoop ops fuel stc cid changed = some (Except.error e) →
      ∃ (st' : State PS) (cid' : IncompId),
        st'.isTerminal (st'.incompatibilityStore.getD cid' default) = true ∧
        e = PubGrubError.noSolution (st'.buildDerivationTree cid')) ∧
    (State.unitPropagation ops fuel crFuel st package = some (Except.error eUP) →
      ∃ (st' : State PS) (cid' : IncompId),
        st'.isTerminal (st'.incompatibilityStore.getD cid' default) = true ∧
        eUP = PubGrubError.noSolution (st'.buildDerivationTree cid')) := by
  refine ⟨?_, ?_, ?_⟩
  · intro hterm
    rw [conflictResolutionLoop, conflictResolutionStep_terminal ops stc cid changed hterm]
  · exact crLoop_error_inv ops fuel stc cid changed e
  · exact fun h => upLoop_error_inv ops crFuel fuel _ eUP h

/-- C2 witness: on the freshly initialized state the `not_root` incompatibility is
terminal and conflict resolution on it fails with `NoSolution` rooted there; the same
run exercises the error inversions of the loop and of `unit_propagation`. -/
theorem conflictResolution_error_iff_terminal_witness :
    (conflictResolutionLoop (unitOps (Assignment.decision 0 0, 1, 1) Relation.satisfied) 1
        (State.init (unitOps (Assignment.decision 0 0, 1, 1) Relation.satisfied) 0 0) 0 false =
      some (Except.error (PubGrubError.noSolution
        ((State.init (unitOps (Assignment.decision 0 0, 1, 1) Relation.satisfied) 0
          0).buildDerivationTree 0)))) ∧
    (∃ (st' : State Unit) (cid' : IncompId),
      st'.isTerminal (st'.incompatibilityStore.getD cid' default) = true ∧
      PubGrubError.noSolution
        ((State.init (unitOps (Assignment.decision 0 0, 1, 1) Relation.satisfied) 0
          0).buildDerivationTree 0) =
        PubGrubError.noSolution (st'.buildDerivationTree cid')) ∧
    (∃ (st' : State Unit) (cid' : IncompId),
      st'.isTerminal (st'.incompatibilityStore.getD cid' default) = true ∧
      PubGrubError.noSolution (State.buildDerivationTree
        { State.init (unitOps (Assignment.decision 0 0, 1, 1) Relation.satisfied) 0 0 with
          unitPropagationBuffer := ([] : List Package) } 0) =
        PubGrubError.noSolution (st'.buildDerivationTree cid')) := by
  have h1 := conflictResolution_error_iff_terminal
    (unitOps (Assignment.decision 0 0, 1, 1) Relation.satisfied) 0 1
    (State.init (unitOps (Assignment.decision 0 0, 1, 1) Relation.satisfied) 0 0)
    (State.init (unitOps (Assignment.decision 0 0, 1, 1) Relation.satisfied) 0 0)
    0 0 false PubGrubError.errorInShouldCancel PubGrubError.errorInShouldCancel
  have h2 := conflictResolution_error_iff_terminal
    (unitOps (Assignment.decision 0 0, 1, 1) Relation.satisfied) 1 1
    (State.init (unitOps (Assignment.decision 0 0, 1, 1) Relation.satisfied) 0 0)
    (State.init (unitOps (Assignment.decision 0 0, 1, 1) Relation.satisfied) 0 0)
    0 0 false
    (PubGrubError.noSolution
      ((State.init (unitOps (Assignment.decision 0 0, 1, 1) Relation.satisfied) 0
        0).buildDerivationTree 0))
    (PubGrubError.noSolution (State.buildDerivationTree
      { State.init (unitOps (Assignment.decision 0 0, 1, 1) Relation.satisfied) 0 0 with
        unitPropagationBuffer := ([] : List Package) } 0))
  exact ⟨h1.1 (by rfl), h2.2.1 (by rfl), h2.2.2 (by rfl)⟩


theorem setInsert_contains (a b : IncompId) (s : List IncompId) :
    (setInsert a s).contains b = (b == a || s.contains b) := by
  unfold setInsert
  by_cases hmem : a ∈ s <;> by_cases hb : b = a <;>
    simp_all [List.contains_eq_any_beq]

/-- Inversion for `mapPush`: an entry of the pushed index is an untouched entry, the
fresh entry `[id]`, or an old entry with `id` appended. -/
theorem mem_mapPush (m : List (Package × List IncompId)) (p : Package) (id : IncompId)
    (q : Package) (ids' : List IncompId) (h : (q, ids') ∈ mapPush m p id) :
    (q, ids') ∈ m ∨
    (q = p ∧ (ids' = [id] ∨ ∃ ids0, (q, ids0) ∈ m ∧ ids' = ids0 ++ [id])) := by
  induction m with
  | nil =>
    simp only [mapPush, List.mem_singleton] at h
    injection h with hq hids
    exact Or.inr ⟨hq, Or.inl hids⟩
  | cons e rest ih =>
    obtain ⟨r, rids⟩ := e
    rw [mapPush] at h
    by_cases hr : (r == p) = true
    · rw [if_pos hr] at h
      have hrp : r = p := by simpa using hr
      rcases List.mem_cons.mp h with h1 | h1
      · injection h1 with hq hids
        exact Or.inr ⟨hq.trans hrp, Or.inr ⟨rids, by rw [hq]; exact List.mem_cons_self .., hids⟩⟩
      · exact Or.inl (List.mem_cons_of_mem _ h1)
    · rw [if_neg hr] at h
      rcases List.mem_cons.mp h with h1 | h1
      · exact Or.inl (h1 ▸ List.mem_cons_self ..)
      · rcases ih h1 with h2 | ⟨hq, h2⟩
        · exact Or.inl (List.mem_cons_of_mem _ h2)
        · refine Or.inr ⟨hq, ?_⟩
          rcases h2 with h3 | ⟨ids0, h4, h5⟩
          · exact Or.inl h3
          · exact Or.inr ⟨ids0, List.mem_cons_of_mem _ h4, h5⟩

/-- The list returned by `mapGet` is an entry of the index (or empty). -/
theorem mapGet_mem (m : List (Package × List IncompId)) (p : Package) :
    mapGet m p = [] ∨ (p, mapGet m p) ∈ m := by
  induction m with
  | nil => exact Or.inl rfl
  | cons e rest ih =>
    obtain ⟨r, rids⟩ := e
    rw [mapGet]
    by_cases hr : (r == p) = true
    · rw [if_pos hr]
      have hrp : r = p := by simpa using hr
      subst hrp
      exact Or.inr (List.mem_cons_self ..)
    · rw [if_neg hr]
      rcases ih with h | h
      · exact Or.inl h
      · exact Or.inr (List.mem_cons_of_mem _ h)

theorem termsFind_none (ts : List (Package × Term)) (p : Package)
    (h : termsFind ts p = none) : p ∉ ts.map Prod.fst := by
  induction ts with
  | nil => simp
  | cons e rest ih =>
    obtain ⟨q, t⟩ := e
    rw [termsFind] at h
    by_cases hq : (q == p) = true
    · rw [if_pos hq] at h
      cases h
    · rw [if_neg hq] at h
      simp only [List.map_cons, List.mem_cons, not_or]
      exact ⟨fun hpq => hq (by simp [hpq]), ih h⟩

theorem termsReplace_keys (ts : List (Package × Term)) (p : Package) (t : Term) :
    (termsReplace ts p t).map Prod.fst = ts.map Prod.fst := by
  induction ts with
  | nil => rfl
  | cons e rest ih =>
    obtain ⟨q, t0⟩ := e
    simp only [termsReplace, List.map_cons] at ih ⊢
    by_cases hq : (q == p) = true
    · rw [if_pos hq]
      simpa using ih
    · rw [if_neg hq]
      simpa using ih

theorem termsErase_keys_sublist (ts : List (Package × Term)) (p : Package) :
    ((termsErase ts p).map Prod.fst).Sublist (ts.map Prod.fst) :=
  (List.filter_sublist ts).map Prod.fst


theorem getD_packages_nodup (store : List Incompatibility) (hstore : StoreNodup store)
    (i : IncompId) : ((store.getD i default).packages).Nodup := by
  rcases Nat.lt_or_ge i store.length with h | h
  · rw [List.getD_eq_getElem?_getD, List.getElem?_eq_getElem h, Option.getD_some]
    exact hstore _ (store.getElem_mem h)
  · rw [List.getD_eq_getElem?_getD, List.getElem?_eq_none h, Option.getD_none]
    simp [Incompatibility.packages, default]

theorem priorCauseFold_nodup (bts : List (Package × Term)) :
    ∀ acc : List (Package × Term), (acc.map Prod.fst).Nodup →
    ((bts.foldl (fun acc pt =>
      match termsFind acc pt.fst with
      | some t0 =>
        let t1 := t0.intersection pt.snd
        if t1.isEmptyTerm then termsErase acc pt.fst else termsReplace acc pt.fst t1
      | none => acc ++ [pt]) acc).map Prod.fst).Nodup := by
  induction bts with
  | nil =>
    intro acc h
    exact h
  | cons pt rest ih =>
    intro acc h
    rw [List.foldl_cons]
    cases hf : termsFind acc pt.fst with
    | some t0 =>
      dsimp only
      by_cases hempty : (t0.intersection pt.snd).isEmptyTerm = true
      · rw [if_pos hempty]
        exact ih _ (h.sublist (termsErase_keys_sublist acc pt.fst))
      · rw [if_neg hempty]
        exact ih _ (by rw [termsReplace_keys]; exact h)
    | none =>
      dsimp only
      refine ih _ ?_
      rw [List.map_append]
      simp only [List.map_cons, List.map_nil]
      rw [List.nodup_append]
      exact ⟨h, List.nodup_singleton _, by
        intro x hx hx2
        simp only [List.mem_singleton] at hx2
        exact termsFind_none acc pt.fst hf (hx2 ▸ hx)⟩

/-- The resolvent `prior_cause` maps distinct packages whenever the store does. -/
theorem priorCause_packages_nodup (store : List Incompatibility) (hstore : StoreNodup store)
    (i c : IncompId) (p : Package) :
    (Incompatibility.priorCause i c p store).packages.Nodup := by
  have ha := getD_packages_nodup store hstore i
  unfold Incompatibility.priorCause
  dsimp only
  apply priorCauseFold_nodup
  exact ha.sublist ((List.filter_sublist _).map Prod.fst)


theorem IndexProps_append (store ext : List Incompatibility)
    (m : List (Package × List IncompId)) (h : IndexProps store m) :
    IndexProps (store ++ ext) m := by
  intro p ids hmem
  obtain ⟨hvalid, hchain, hkeys⟩ := h p ids hmem
  refine ⟨fun id hid => ?_, hchain, fun id hid => ?_⟩
  · have := hvalid id hid
    rw [List.length_append]
    exact Nat.lt_of_lt_of_le this (Nat.le_add_right ..)
  · have hlt := hvalid id hid
    rw [List.getD_eq_getElem?_getD, List.getElem?_append_left hlt,
      ← List.getD_eq_getElem?_getD]
    exact hkeys id hid

theorem StoreNodup_append (store ext : List Incompatibility) (h : StoreNodup store)
    (hext : ∀ inc ∈ ext, inc.packages.Nodup) : StoreNodup (store ++ ext) := by
  intro inc hmem
  rcases List.mem_append.mp hmem with hm | hm
  · exact h inc hm
  · exact hext inc hm

/-- Pushing a fresh id under a list of distinct packages of its incompatibility
preserves the index invariant and bounds all ids by the fresh id. -/
theorem mergeFold_inv (store : List Incompatibility) (idNew : IncompId)
    (hlen : idNew < store.length) :
    ∀ (pts : List (Package × Term)) (m : List (Package × List IncompId)),
    IndexProps store m →
    (∀ p ids, (p, ids) ∈ m → ∀ id ∈ ids, id ≤ idNew) →
    (∀ pt ∈ pts, ∀ ids, (pt.fst, ids) ∈ m → idNew ∉ ids) →
    (∀ pt ∈ pts, pt.fst ∈ (store.getD idNew default).packages) →
    (pts.map Prod.fst).Nodup →
    IndexProps store (pts.foldl (fun acc pt => mapPush acc pt.fst idNew) m) ∧
    (∀ p ids, (p, ids) ∈ pts.foldl (fun acc pt => mapPush acc pt.fst idNew) m →
      ∀ id ∈ ids, id ≤ idNew) := by
  intro pts
  induction pts with
  | nil =>
    intro m h1 h2 _ _ _
    exact ⟨h1, h2⟩
  | cons pt rest ih =>
    intro m h1 h2 h3 h4 h5
    rw [List.foldl_cons]
    apply ih (mapPush m pt.fst idNew)
    · intro q ids' hmem
      rcases mem_mapPush m pt.fst idNew q ids' hmem with hold | ⟨hq, hnew⟩
      · exact h1 q ids' hold
      · rcases hnew with rfl | ⟨ids0, hm0, rfl⟩
        · refine ⟨fun id hid => ?_, List.chain'_singleton _, fun id hid => ?_⟩
          · rw [List.mem_singleton] at hid
            exact hid ▸ hlen
          · rw [List.mem_singleton] at hid
            subst hid
            rw [hq]
            exact h4 pt (List.mem_cons_self ..)
        · obtain ⟨hvalid0, hchain0, hkeys0⟩ := h1 q ids0 hm0
          refine ⟨fun id hid => ?_, ?_, fun id hid => ?_⟩
          · rcases List.mem_append.mp hid with hi | hi
            · exact hvalid0 id hi
            · rw [List.mem_singleton] at hi
              exact hi ▸ hlen
          · rw [List.chain'_append]
            refine ⟨hchain0, List.chain'_singleton _, ?_⟩
            intro x hx y hy
            simp only [List.head?_cons, Option.mem_def, Option.some.injEq] at hy
            subst hy
            have hxmem := List.mem_of_mem_getLast? hx
            have hle := h2 q ids0 hm0 x hxmem
            have hne : idNew ∉ ids0 := by
              rw [hq] at hm0
              exact h3 pt (List.mem_cons_self ..) ids0 hm0
            rcases Nat.lt_or_ge x idNew with hlt | hge
            · exact hlt
            · exact absurd (Nat.le_antisymm hle hge ▸ hxmem) hne
          · rcases List.mem_append.mp hid with hi | hi
            · exact hkeys0 id hi
            · rw [List.mem_singleton] at hi
              subst hi
              rw [hq]
              exact h4 pt (List.mem_cons_self ..)
    · intro q ids' hmem
      rcases mem_mapPush m pt.fst idNew q ids' hmem with hold | ⟨hq, hnew⟩
      · exact h2 q ids' hold
      · rcases hnew with rfl | ⟨ids0, hm0, rfl⟩
        · intro id hid
          rw [List.mem_singleton] at hid
          exact Nat.le_of_eq hid
        · intro id hid
          rcases List.mem_append.mp hid with hi | hi
          · exact h2 q ids0 hm0 id hi
          · rw [List.mem_singleton] at hi
            exact Nat.le_of_eq hi
    · intro pt' hpt' ids' hmem
      rcases mem_mapPush m pt.fst idNew pt'.fst ids' hmem with hold | ⟨hq, _⟩
      · exact h3 pt' (List.mem_cons_of_mem _ hpt') ids' hold
      · exfalso
        rw [List.map_cons, List.nodup_cons] at h5
        exact h5.1 (hq ▸ List.mem_map_of_mem Prod.fst hpt')
    · exact fun pt' hpt' => h4 pt' (List.mem_cons_of_mem _ hpt')
    · rw [List.map_cons, List.nodup_cons] at h5
      exact h5.2

/-- Merging with a fresh id preserves the state invariant; afterwards
every id in the index is at most the merged id, and the store is untouched. -/
theorem mergeIncompatibility_inv {PS : Type} (st : State PS) (id : IncompId)
    (hinv : StateInv st)
    (hfresh : ∀ p ids, (p, ids) ∈ st.incompatibilities → ∀ i ∈ ids, i < id)
    (hlen : id < st.incompatibilityStore.length) :
    StateInv (st.mergeIncompatibility id) ∧
    (∀ p ids, (p, ids) ∈ (st.mergeIncompatibility id).incompatibilities →
      ∀ i ∈ ids, i < id + 1) ∧
    (st.mergeIncompatibility id).incompatibilityStore = st.incompatibilityStore := by
  obtain ⟨hidx, hstore⟩ := hinv
  have hmain := mergeFold_inv st.incompatibilityStore id hlen
    (st.incompatibilityStore.getD id default).terms st.incompatibilities hidx
    (fun p ids hm i hi => Nat.le_of_lt (hfresh p ids hm i hi))
    (fun pt _ ids hm hin => Nat.lt_irrefl id (hfresh pt.fst ids hm id hin))
    (fun pt hpt => List.mem_map_of_mem Prod.fst hpt)
    (getD_packages_nodup st.incompatibilityStore hstore id)
  refine ⟨⟨hmain.1, hstore⟩, ?_, rfl⟩
  intro p ids hm i hi
  exact Nat.lt_succ_of_le (hmain.2 p ids hm i hi)

theorem init_inv {PS : Type} (ops : PartialSolutionOps PS) (r : Package) (v : Version) :
    StateInv (State.init ops r v) := by
  constructor
  · intro p ids hmem
    simp only [State.init, List.mem_singleton] at hmem
    injection hmem with hp hids
    subst hp
    subst hids
    refine ⟨?_, List.chain'_singleton _, ?_⟩
    · intro id hid
      rw [List.mem_singleton] at hid
      subst hid
      simp [State.init]
    · intro id hid
      rw [List.mem_singleton] at hid
      subst hid
      simp [State.init, Incompatibility.notRoot, Incompatibility.packages]
  · intro inc hmem
    simp only [State.init, List.mem_singleton] at hmem
    subst hmem
    simp [Incompatibility.notRoot, Incompatibility.packages]

theorem addIncompatibility_inv {PS : Type} (st : State PS) (incompat : Incompatibility)
    (hinv : StateInv st) (hnodup : incompat.packages.Nodup) :
    StateInv (st.addIncompatibility incompat) := by
  obtain ⟨hidx, hstore⟩ := hinv
  unfold State.addIncompatibility
  dsimp only
  have hinv1 : StateInv ({ st with incompatibilityStore :=
      (st.incompatibilityStore ++ [incompat]) } : State PS) := by
    refine ⟨IndexProps_append _ _ _ hidx, StoreNodup_append _ _ hstore ?_⟩
    intro inc h
    rw [List.mem_singleton] at h
    subst h
    exact hnodup
  refine (mergeIncompatibility_inv _ st.incompatibilityStore.length hinv1 ?_ ?_).1
  · intro p ids hmem i hi
    exact (hidx p ids hmem).1 i hi
  · simp

theorem mergeIds_inv {PS : Type} :
    ∀ (n b : Nat) (st : State PS),
    StateInv st →
    (∀ p ids, (p, ids) ∈ st.incompatibilities → ∀ i ∈ ids, i < b) →
    b + n ≤ st.incompatibilityStore.length →
    StateInv (st.mergeIds (List.range' b n)) ∧
    (∀ p ids, (p, ids) ∈ (st.mergeIds (List.range' b n)).incompatibilities →
      ∀ i ∈ ids, i < b + n) ∧
    (st.mergeIds (List.range' b n)).incompatibilityStore = st.incompatibilityStore := by
  intro n
  induction n with
  | zero =>
    intro b st h1 h2 _
    exact ⟨h1, by simpa [State.mergeIds] using h2, rfl⟩
  | succ n ihn =>
    intro b st h1 h2 h3
    rw [List.range'_succ, State.mergeIds]
    have hblt : b < st.incompatibilityStore.length := by omega
    have hm := mergeIncompatibility_inv st b h1 h2 hblt
    obtain ⟨hm1, hm2, hm3⟩ := hm
    have hrec := ihn (b + 1) (st.mergeIncompatibility b) hm1 hm2 (by rw [hm3]; omega)
    refine ⟨hrec.1, ?_, by rw [hrec.2.2, hm3]⟩
    intro p ids hmem i hi
    exact Nat.lt_of_lt_of_le (hrec.2.1 p ids hmem i hi) (by omega)

theorem addFromDeps_inv {PS : Type} (st : State PS) (package : Package) (version : Version)
    (deps : List (Package × RangeSet)) (hinv : StateInv st)
    (hself : package ∉ deps.map Prod.fst) :
    StateInv (st.addIncompatibilityFromDependencies package version deps).2 := by
  obtain ⟨hidx, hstore⟩ := hinv
  unfold State.addIncompatibilityFromDependencies
  dsimp only
  have hinv1 : StateInv ({ st with incompatibilityStore := (st.incompatibilityStore ++
      deps.map (fun dep => Incompatibility.fromDependency package version dep)) } :
      State PS) := by
    refine ⟨IndexProps_append _ _ _ hidx, StoreNodup_append _ _ hstore ?_⟩
    intro inc h
    rw [List.mem_map] at h
    obtain ⟨dep, hdep, rfl⟩ := h
    simp only [Incompatibility.fromDependency, Incompatibility.packages, List.map_cons,
      List.map_nil, List.nodup_cons, List.mem_singleton, List.nodup_singleton, and_true]
    refine ⟨fun hEq => hself (hEq ▸ List.mem_map_of_mem Prod.fst hdep), by simp, List.nodup_nil⟩
  have hsub : (st.incompatibilityStore ++
      deps.map (fun dep => Incompatibility.fromDependency package version dep)).length -
      st.incompatibilityStore.length = deps.length := by
    simp
  rw [hsub]
  refine (mergeIds_inv deps.length st.incompatibilityStore.length _ hinv1 ?_ (by simp)).1
  intro p ids hmem i hi
  exact (hidx p ids hmem).1 i hi

theorem unitPropagationScan_fields {PS : Type} (ops : PartialSolutionOps PS) :
    ∀ (l : List IncompId) (st : State PS),
    (unitPropagationScan ops st l).1.incompatibilities = st.incompatibilities ∧
    (unitPropagationScan ops st l).1.incompatibilityStore = st.incompatibilityStore := by
  intro l
  induction l with
  | nil =>
    intro st
    exact ⟨rfl, rfl⟩
  | cons id rest ih =>
    intro st
    rw [unitPropagationScan]
    by_cases hused : st.usedIncompatibilities.contains id = true
    · rw [if_pos hused]
      exact ih st
    · rw [if_neg hused]
      cases ops.relation st.partialSolution (st.incompatibilityStore.getD id default) with
      | satisfied => exact ⟨rfl, rfl⟩
      | almostSatisfied q => exact ih _
      | contradicted q => exact ih _
      | inconclusive => exact ih _

theorem conflictResolutionStep_success_inv {PS : Type} (ops : PartialSolutionOps PS)
    (st : State PS) (cid : IncompId) (changed : Bool) (p : Package) (rc : IncompId)
    (st' : State PS) (h : conflictResolutionStep ops st cid changed = CRStep.success p rc st') :
    rc = cid ∧ ∃ lvl, st' = State.backtrack ops st cid changed lvl := by
  unfold conflictResolutionStep at h
  split at h
  · cases h
  · split at h
    · cases h
      exact ⟨rfl, _, rfl⟩
    · split at h
      · cases h
        exact ⟨rfl, _, rfl⟩
      · cases h

theorem conflictResolutionStep_next_inv {PS : Type} (ops : PartialSolutionOps PS)
    (st : State PS) (cid : IncompId) (changed : Bool) (st' : State PS) (newId : IncompId)
    (h : conflictResolutionStep ops st cid changed = CRStep.next st' newId) :
    ∃ cause pkg, st' = { st with incompatibilityStore := (st.incompatibilityStore ++
        [Incompatibility.priorCause cid cause pkg st.incompatibilityStore]) } ∧
      newId = st.incompatibilityStore.length := by
  unfold conflictResolutionStep at h
  split at h
  · cases h
  · split at h
    · cases h
    · split at h
      · cases h
      · cases h
        exact ⟨_, _, rfl, rfl⟩

theorem backtrack_inv {PS : Type} (ops : PartialSolutionOps PS) (st : State PS)
    (cid : IncompId) (changed : Bool) (lvl : DecisionLevel) (hinv : StateInv st)
    (hchg : changed = true →
      (∀ p ids, (p, ids) ∈ st.incompatibilities → ∀ i ∈ ids, i < cid) ∧
      cid < st.incompatibilityStore.length) :
    StateInv (State.backtrack ops st cid changed lvl) := by
  unfold State.backtrack
  cases changed with
  | false => exact hinv
  | true =>
    dsimp only
    obtain ⟨hb, hl⟩ := hchg rfl
    exact (mergeIncompatibility_inv _ cid ⟨hinv.1, hinv.2⟩ hb hl).1

theorem crLoop_inv {PS : Type} (ops : PartialSolutionOps PS) :
    ∀ (fuel : Nat) (st : State PS) (cid : IncompId) (changed : Bool) (p : Package)
      (rc : IncompId) (st2 : State PS),
    StateInv st →
    (changed = true →
      (∀ q ids, (q, ids) ∈ st.incompatibilities → ∀ i ∈ ids, i < cid) ∧
      cid < st.incompatibilityStore.length) →
    conflictResolutionLoop ops fuel st cid changed = some (Except.ok ((p, rc), st2)) →
    StateInv st2 := by
  intro fuel
  induction fuel with
  | zero =>
    intro st cid changed p rc st2 _ _ h
    simp [conflictResolutionLoop] at h
  | succ fuel ih =>
    intro st cid changed p rc st2 hinv hchg h
    rw [conflictResolutionLoop] at h
    cases hstep : conflictResolutionStep ops st cid changed with
    | failure tree =>
      rw [hstep] at h
      cases h
    | success pkg rootCause stB =>
      rw [hstep] at h
      obtain ⟨-, lvl, rfl⟩ :=
        conflictResolutionStep_success_inv ops st cid changed pkg rootCause stB hstep
      simp only [Option.some.injEq, Except.ok.injEq, Prod.mk.injEq] at h
      obtain ⟨-, hst2⟩ := h
      subst hst2
      exact backtrack_inv ops st cid changed lvl hinv hchg
    | next st' newId =>
      rw [hstep] at h
      obtain ⟨cause, pkg, rfl, rfl⟩ :=
        conflictResolutionStep_next_inv ops st cid changed st' newId hstep
      refine ih _ _ true p rc st2 ?_ ?_ h
      · obtain ⟨hidx, hstore⟩ := hinv
        refine ⟨IndexProps_append _ _ _ hidx, StoreNodup_append _ _ hstore ?_⟩
        intro inc hm
        rw [List.mem_singleton] at hm
        subst hm
        exact priorCause_packages_nodup _ hstore _ _ _
      · intro _
        constructor
        · intro q ids hm i hi
          exact (hinv.1 q ids hm).1 i hi
        · dsimp only
          rw [List.length_append]
          simp

theorem upLoop_inv {PS : Type} (ops : PartialSolutionOps PS) (crFuel : Nat) :
    ∀ (fuel : Nat) (st st' : State PS),
    StateInv st → unitPropagationLoop ops crFuel fuel st = some (Except.ok st') →
    StateInv st' := by
  intro fuel
  induction fuel with
  | zero =>
    intro st st' _ h
    simp [unitPropagationLoop] at h
  | succ fuel ih =>
    intro st st' hinv h
    rw [unitPropagationLoop] at h
    cases hbuf : st.unitPropagationBuffer with
    | nil =>
      rw [hbuf] at h
      simp only [Option.some.injEq, Except.ok.injEq] at h
      subst h
      exact hinv
    | cons currentPackage restBuffer =>
      rw [hbuf] at h
      dsimp only [] at h
      have hfields := unitPropagationScan_fields ops
        ((mapGet st.incompatibilities currentPackage).reverse)
        { st with unitPropagationBuffer := restBuffer }
      have hinvScan : StateInv (unitPropagationScan ops
          { st with unitPropagationBuffer := restBuffer }
          ((mapGet st.incompatibilities currentPackage).reverse)).1 := by
        unfold StateInv
        rw [hfields.1, hfields.2]
        exact hinv
      cases hscan : (unitPropagationScan ops { st with unitPropagationBuffer := restBuffer }
          ((mapGet st.incompatibilities currentPackage).reverse)).2 with
      | none =>
        rw [hscan] at h
        exact ih _ _ hinvScan h
      | some incompatId =>
        rw [hscan] at h
        dsimp only [] at h
        cases hcr : State.conflictResolution ops crFuel
            (unitPropagationScan ops { st with unitPropagationBuffer := restBuffer }
              ((mapGet st.incompatibilities currentPackage).reverse)).1 incompatId with
        | none =>
          rw [hcr] at h
          cases h
        | some res =>
          rw [hcr] at h
          cases res with
          | error eCR =>
            dsimp only [] at h
            cases h
          | ok r =>
            obtain ⟨⟨packageAlmost, rootCause⟩, st2⟩ := r
            have hst2 : StateInv st2 :=
              crLoop_inv ops crFuel _ incompatId false packageAlmost rootCause st2
                hinvScan (by intro hFalse; cases hFalse) hcr
            refine ih _ _ ?_ h
            exact ⟨hst2.1, hst2.2⟩

/-- Every reachable state satisfies the index/store invariant. -/
theorem reachable_StateInv {PS : Type} (ops : PartialSolutionOps PS) (st : State PS)
    (h : Reachable ops st) : StateInv st := by
  induction h with
  | init r v => exact init_inv ops r v
  | addIncompatibility st incompat _ hnodup ih =>
    exact addIncompatibility_inv st incompat ih hnodup
  | addIncompatibilityFromDependencies st package version deps _ hself ih =>
    exact addFromDeps_inv st package version deps ih hself
  | unitPropagation st package fuel crFuel st' _ hrun ih =>
    refine upLoop_inv ops crFuel fuel _ st' ?_ hrun
    exact ⟨ih.1, ih.2⟩

/-- C8: for every state reachable from `init` by the public operations, and for every
package key of the incompatibility index, each incompatibility id listed under that
package refers to an incompatibility whose term map contains that package. -/
theorem index_ids_contain_package {PS : Type} (ops : PartialSolutionOps PS) (st : State PS)
    (h : Reachable ops st) (p : Package) (ids : List IncompId)
    (hmem : (p, ids) ∈ st.incompatibilities) :
    ∀ id ∈ ids, p ∈ ((st.incompatibilityStore.getD id default).terms).map Prod.fst := by
  have hinv := reachable_StateInv ops st h
  exact (hinv.1 p ids hmem).2.2

/-- C8 witness: the invariant evaluated on the freshly initialized state. -/
theorem index_ids_contain_package_witness :
    0 ∈ (((State.init (unitOps (Assignment.decision 0 0, 1, 1) Relation.inconclusive) 0
        0).incompatibilityStore.getD 0 default).terms).map Prod.fst := by
  exact index_ids_contain_package
    (unitOps (Assignment.decision 0 0, 1, 1) Relation.inconclusive) _
    (Reachable.init 0 0) 0 [0] (List.mem_singleton.mpr rfl) 0 (List.mem_singleton.mpr rfl)

/-- C10: in every reachable state, each per-package list of the incompatibility index
holds ids in strictly increasing allocation order (every operation only pushes freshly
allocated ids, larger than all ids already present), so reverse iteration over a list
is exactly newest-first (pairwise decreasing) by allocation id. -/
theorem index_ids_strictly_increasing {PS : Type} (ops : PartialSolutionOps PS)
    (st : State PS) (h : Reachable ops st) (p : Package) (ids : List IncompId)
    (hmem : (p, ids) ∈ st.incompatibilities) :
    ids.Chain' (· < ·) ∧ ids.reverse.Pairwise (· > ·) := by
  have hinv := reachable_StateInv ops st h
  have hchain := (hinv.1 p ids hmem).2.1
  have hpw := List.chain'_iff_pairwise.mp hchain
  refine ⟨hchain, ?_⟩
  rw [List.pairwise_reverse]
  exact hpw

/-- C10 witness: the ordering invariant evaluated on the freshly initialized state. -/
theorem index_ids_strictly_increasing_witness :
    List.Chain' (· < ·) [0] ∧ List.Pairwise (· > ·) (List.reverse [0]) := by
  exact index_ids_strictly_increasing
    (unitOps (Assignment.decision 0 0, 1, 1) Relation.inconclusive) _
    (Reachable.init 0 0) 0 [0] (List.mem_singleton.mpr rfl)

/-- When the scan of a duplicate-free id list finds no conflict, the examined ids are
exactly the unused ids of the list, in order. -/
theorem examined_eq_filter {PS : Type} (ops : PartialSolutionOps PS) :
    ∀ (l : List IncompId) (st : State PS), l.Nodup →
    (unitPropagationScan ops st l).2 = none →
    unitPropagationExamined ops st l =
      l.filter (fun i => !st.usedIncompatibilities.contains i) := by
  intro l
  induction l with
  | nil =>
    intro st _ _
    rfl
  | cons id rest ih =>
    intro st hnodup hscan
    rw [List.nodup_cons] at hnodup
    obtain ⟨hnotin, hnd⟩ := hnodup
    rw [unitPropagationScan] at hscan
    rw [unitPropagationExamined, List.filter_cons]
    by_cases hused : st.usedIncompatibilities.contains id = true
    · rw [if_pos hused] at hscan ⊢
      rw [hused]
      simp only [Bool.not_true, Bool.false_eq_true, if_false]
      exact ih st hnd hscan
    · rw [if_neg hused] at hscan ⊢
      have husedF : st.usedIncompatibilities.contains id = false := by
        simpa using hused
      rw [husedF]
      simp only [Bool.not_false, if_true]
      cases hrel : ops.relation st.partialSolution
          (st.incompatibilityStore.getD id default) with
      | satisfied =>
        rw [hrel] at hscan
        cases hscan
      | almostSatisfied q =>
        rw [hrel] at hscan
        dsimp only [] at hscan ⊢
        rw [ih _ hnd hscan]
        have hfeq : rest.filter
            (fun i => !(setInsert id st.usedIncompatibilities).contains i) =
            rest.filter (fun i => !st.usedIncompatibilities.contains i) := by
          apply List.filter_congr
          intro x hx
          have hxne : (x == id) = false := by
            simp only [beq_eq_false_iff_ne, ne_eq]
            exact fun hEq => hnotin (hEq ▸ hx)
          rw [setInsert_contains, hxne, Bool.false_or]
        rw [hfeq]
      | contradicted q =>
        rw [hrel] at hscan
        dsimp only [] at hscan ⊢
        rw [ih _ hnd hscan]
        have hfeq : rest.filter
            (fun i => !(setInsert id st.usedIncompatibilities).contains i) =
            rest.filter (fun i => !st.usedIncompatibilities.contains i) := by
          apply List.filter_congr
          intro x hx
          have hxne : (x == id) = false := by
            simp only [beq_eq_false_iff_ne, ne_eq]
            exact fun hEq => hnotin (hEq ▸ hx)
          rw [setInsert_contains, hxne, Bool.false_or]
        rw [hfeq]
      | inconclusive =>
        rw [hrel] at hscan
        dsimp only [] at hscan ⊢
        rw [ih st hnd hscan]

/-- The examined ids always form a sub-list of the scanned list. -/
theorem examined_sublist {PS : Type} (ops : PartialSolutionOps PS) :
    ∀ (l : List IncompId) (st : State PS),
    (unitPropagationExamined ops st l).Sublist l := by
  intro l
  induction l with
  | nil =>
    intro st
    exact List.Sublist.refl []
  | cons id rest ih =>
    intro st
    rw [unitPropagationExamined]
    by_cases hused : st.usedIncompatibilities.contains id = true
    · rw [if_pos hused]
      exact (ih st).cons id
    · rw [if_neg hused]
      cases hrel : ops.relation st.partialSolution
          (st.incompatibilityStore.getD id default) with
      | satisfied => exact (List.nil_sublist rest).cons₂ id
      | almostSatisfied q => exact (ih _).cons₂ id
      | contradicted q => exact (ih _).cons₂ id
      | inconclusive => exact (ih st).cons₂ id

/-- C7: for every package popped from the changed-packages stack, `unit_propagation`
examines (evaluates the relation of) exactly the incompatibilities indexed under that
package, in reverse allocation-id order (newest allocated first), skipping those
currently in the used set: when the scan records no conflict the examined ids are
exactly the unused ids of the reversed index list in order, and in every reachable
state the examined ids are pairwise strictly decreasing by allocation id. -/
theorem unitPropagation_scans_reverse_index {PS : Type} (ops : PartialSolutionOps PS)
    (st : State PS) (h : Reachable ops st) (p : Package) :
    ((unitPropagationScan ops st ((mapGet st.incompatibilities p).reverse)).2 = none →
      unitPropagationExamined ops st ((mapGet st.incompatibilities p).reverse) =
        ((mapGet st.incompatibilities p).reverse).filter
          (fun i => !st.usedIncompatibilities.contains i)) ∧
    (unitPropagationExamined ops st
      ((mapGet st.incompatibilities p).reverse)).Pairwise (· > ·) := by
  have hinv := reachable_StateInv ops st h
  have hchain : (mapGet st.incompatibilities p).Chain' (· < ·) := by
    rcases mapGet_mem st.incompatibilities p with hE | hE
    · rw [hE]
      exact List.chain'_nil
    · exact (hinv.1 p _ hE).2.1
  have hpw : (mapGet st.incompatibilities p).Pairwise (· < ·) :=
    List.chain'_iff_pairwise.mp hchain
  have hrevpw : ((mapGet st.incompatibilities p).reverse).Pairwise (· > ·) := by
    rw [List.pairwise_reverse]
    exact hpw
  have hnodup : ((mapGet st.incompatibilities p).reverse).Nodup :=
    hrevpw.imp (fun hx => Nat.ne_of_gt hx)
  constructor
  · intro hnone
    exact examined_eq_filter ops _ st hnodup hnone
  · exact hrevpw.sublist (examined_sublist ops _ st)

/-- C7 witness: the scan of the freshly initialized state examines exactly the single
indexed incompatibility of the root. -/
theorem unitPropagation_scans_reverse_index_witness :
    unitPropagationExamined (unitOps (Assignment.decision 0 0, 1, 1) Relation.inconclusive)
      (State.init (unitOps (Assignment.decision 0 0, 1, 1) Relation.inconclusive) 0 0)
      ((mapGet (State.init (unitOps (Assignment.decision 0 0, 1, 1) Relation.inconclusive) 0
        0).incompatibilities 0).reverse) =
      ((mapGet (State.init (unitOps (Assignment.decision 0 0, 1, 1) Relation.inconclusive) 0
        0).incompatibilities 0).reverse).filter
        (fun i => !(State.init (unitOps (Assignment.decision 0 0, 1, 1) Relation.inconclusive)
          0 0).usedIncompatibilities.contains i) := by
  exact (unitPropagation_scans_reverse_index
    (unitOps (Assignment.decision 0 0, 1, 1) Relation.inconclusive)
    (State.init (unitOps (Assignment.decision 0 0, 1, 1) Relation.inconclusive) 0 0)
    (Reachable.init 0 0) 0).1 (by rfl)

/-- Characterization of the shared-id walk relative to its visit sequence: an id ends
in the shared set iff it already is there, or it has causes and is visited once while
already in the visited set or at least twice in total. -/
theorem findSharedIdsLoop_mem (store : List Incompatibility) :
    ∀ (fuel : Nat) (stack : List IncompId) (all shared : Finset Nat) (i : IncompId),
    i ∈ findSharedIdsLoop store fuel stack all shared ↔
      (i ∈ shared ∨ ((store.getD i default).causes ≠ none ∧
        ((i ∈ all ∧ 1 ≤ (findSharedIdsPopsLoop store fuel stack all).count i) ∨
          2 ≤ (findSharedIdsPopsLoop store fuel stack all).count i))) := by
  intro fuel
  induction fuel with
  | zero =>
    intro stack all shared i
    simp [findSharedIdsLoop, findSharedIdsPopsLoop]
  | succ fuel ih =>
    intro stack all shared i
    cases stack with
    | nil => simp [findSharedIdsLoop, findSharedIdsPopsLoop]
    | cons i0 rest =>
      rw [findSharedIdsLoop, findSharedIdsPopsLoop]
      cases hc : (store.getD i0 default).causes with
      | none =>
        dsimp only []
        rw [ih]
        by_cases hi : i = i0
        · subst hi
          rw [hc]
          simp
        · have hcount : (i0 :: findSharedIdsPopsLoop store fuel rest all).count i =
              (findSharedIdsPopsLoop store fuel rest all).count i := by
            rw [List.count_cons]
            simp [Ne.symm hi]
          rw [hcount]
      | some c =>
        dsimp only []
        by_cases hin : i0 ∈ all
        · rw [if_pos hin, if_pos hin, ih]
          by_cases hi : i = i0
          · subst hi
            rw [hc, List.count_cons_self]
            apply iff_of_true
            · exact Or.inl (Finset.mem_insert_self ..)
            · exact Or.inr ⟨by simp, Or.inl ⟨hin, Nat.le_add_left 1 _⟩⟩
          · have hcount : (i0 :: findSharedIdsPopsLoop store fuel rest all).count i =
                (findSharedIdsPopsLoop store fuel rest all).count i := by
              rw [List.count_cons]
              simp [Ne.symm hi]
            rw [hcount]
            simp [Finset.mem_insert, hi]
        · rw [if_neg hin, if_neg hin, ih]
          by_cases hi : i = i0
          · subst hi
            rw [hc, List.count_cons_self]
            constructor
            · intro h
              rcases h with hs | ⟨hd, hcase⟩
              · exact Or.inl hs
              · refine Or.inr ⟨hd, Or.inr ?_⟩
                rcases hcase with ⟨-, h1⟩ | h2 <;> omega
            · intro h
              rcases h with hs | ⟨hd, hcase⟩
              · exact Or.inl hs
              · refine Or.inr ⟨hd, Or.inl ⟨Finset.mem_insert_self .., ?_⟩⟩
                rcases hcase with ⟨habs, -⟩ | h2
                · exact absurd habs hin
                · omega
          · have hcount : (i0 :: findSharedIdsPopsLoop store fuel
                (c.2 :: c.1 :: rest) (insert i0 all)).count i =
                (findSharedIdsPopsLoop store fuel (c.2 :: c.1 :: rest)
                  (insert i0 all)).count i := by
              rw [List.count_cons]
              simp [Ne.symm hi]
            rw [hcount]
            simp [Finset.mem_insert, hi]

/-- Entry-point characterization: an id is in the shared set iff it has causes and the
walk visits it at least twice. -/
theorem findSharedIds_mem {PS : Type} (st : State PS) (incompat i : IncompId) :
    i ∈ st.findSharedIds incompat ↔
      ((st.incompatibilityStore.getD i default).causes ≠ none ∧
        2 ≤ (st.findSharedIdsPops incompat).count i) := by
  unfold State.findSharedIds State.findSharedIdsPops
  rw [findSharedIdsLoop_mem]
  simp


/-- C4 counterexample: in `cexStore` the terminal incompatibility `1` is Derived with
the External leaf `0` as both causes, so the walk reaches `0` along two distinct paths
(it visits `0` twice), yet `0` is not in the returned shared set — External leaf
incompatibilities are never added to it. -/
theorem findSharedIds_external_leaf_not_shared :
    (cexStore.getD 1 default).causes = some (0, 0) ∧
    (cexStore.getD 0 default).causes = none ∧
    (cexState.findSharedIdsPops 1).count 0 = 2 ∧
    0 ∉ cexState.findSharedIds 1 := by
  refine ⟨rfl, rfl, by decide, by decide⟩

/-- C4 (amended): an id is in the shared set returned by `find_shared_ids` exactly when
it is a Derived incompatibility (it has causes) that the cause walk visits at least
twice; an id with causes is added to the shared set on each visit after its first,
and its parents are pushed for recursion only on its first visit. -/
theorem findSharedIds_shared_iff_derived_visited_twice {PS : Type} (st : State PS)
    (incompat i : IncompId) (fuel : Nat) (all shared : Finset Nat)
    (i0 : IncompId) (rest : List IncompId) (c : IncompId × IncompId) :
    (i ∈ st.findSharedIds incompat ↔
      ((st.incompatibilityStore.getD i default).causes ≠ none ∧
        2 ≤ (st.findSharedIdsPops incompat).count i)) ∧
    ((st.incompatibilityStore.getD i0 default).causes = some c → i0 ∉ all →
      findSharedIdsLoop st.incompatibilityStore (fuel + 1) (i0 :: rest) all shared =
        findSharedIdsLoop st.incompatibilityStore fuel (c.2 :: c.1 :: rest)
          (insert i0 all) shared) ∧
    ((st.incompatibilityStore.getD i0 default).causes = some c → i0 ∈ all →
      findSharedIdsLoop st.incompatibilityStore (fuel + 1) (i0 :: rest) all shared =
        findSharedIdsLoop st.incompatibilityStore fuel rest all (insert i0 shared)) := by
  refine ⟨findSharedIds_mem st incompat i, ?_, ?_⟩
  · intro hc hnotin
    rw [findSharedIdsLoop, hc]
    dsimp only []
    rw [if_neg hnotin]
  · intro hc hin
    rw [findSharedIdsLoop, hc]
    dsimp only []
    rw [if_pos hin]

/-- C4 (amended) witness: the characterization and the first-visit recursion step
evaluated on the counterexample store. -/
theorem findSharedIds_shared_iff_derived_visited_twice_witness :
    ((0 ∈ cexState.findSharedIds 1 ↔
      ((cexState.incompatibilityStore.getD 0 default).causes ≠ none ∧
        2 ≤ (cexState.findSharedIdsPops 1).count 0)) ∧
    findSharedIdsLoop cexState.incompatibilityStore 5 [1] ∅ ∅ =
      findSharedIdsLoop cexState.incompatibilityStore 4 [0, 0] (insert 1 ∅) ∅ ∧
    findSharedIdsLoop cexState.incompatibilityStore 5 [1] (insert 1 ∅) ∅ =
      findSharedIdsLoop cexState.incompatibilityStore 4 [] (insert 1 ∅) (insert 1 ∅)) := by
  have h := findSharedIds_shared_iff_derived_visited_twice cexState 1 0 4 ∅ ∅ 1 []
    (0, 0)
  have h2 := findSharedIds_shared_iff_derived_visited_twice cexState 1 0 4 (insert 1 ∅) ∅
    1 [] (0, 0)
  exact ⟨h.1, h.2.1 (by rfl) (by decide), h2.2.2 (by rfl) (by decide)⟩
